import Mathlib

/-!
Verification of the endpoint-resolution / search engine and the cached-query
store of the `cwm_mcp_gateway` repository (files `api_gateway/api_db_utils.py`
and `api_gateway/cached_queries_db.py`).

The Python code is shallowly embedded here:

* pure string manipulation (`_normalize_path`, `_convert_segment_to_parameter`,
  `_convert_to_parameterized_path`, `_convert_to_generic_pattern`) is translated
  directly into Lean functions over `String` / `List Char`;
* SQL is modelled over explicit row lists: `ILIKE` / `LIKE` become an executable
  pattern matcher (`likeMatchL`), `ORDER BY` becomes an insertion sort,
  `LIMIT n` becomes `List.take n`;
* the PostgreSQL full-text tiers (`websearch_to_tsquery` / `plainto_tsquery`
  ranking) are external to the source: they are passed in as oracle arguments of
  type `Except Unit (List EndpointRow)`, where `Except.error` models a raised
  exception inside the tier; `json.loads` is likewise modelled by an oracle
  `parseOk : String → Bool` deciding whether deserialization succeeds;
* the saved-query table becomes an explicit store state (`SQStore`) threaded
  through each operation; `int(time.time())` becomes an explicit `now` argument.
-/

/-! ## Basic Python / SQL string primitives -/

/-- Characters removed by Python's `str.strip()` (ASCII whitespace). -/
def pyIsSpace (c : Char) : Bool :=
  c == ' ' || c == '\t' || c == '\n' || c == '\r' || c == '\x0b' || c == '\x0c'

/-- Python `str.strip()` on a character list. -/
def pyStripL (l : List Char) : List Char :=
  ((l.dropWhile pyIsSpace).reverse.dropWhile pyIsSpace).reverse

/-- Python `str.strip()`. -/
def pyStrip (s : String) : String :=
  String.mk (pyStripL s.toList)

/-- Python `str.lower()` (ASCII). -/
def pyLower (s : String) : String :=
  String.mk (s.toList.map Char.toLower)

/-- `n` begins `h`. -/
def startsWithL : List Char → List Char → Bool
  | [], _ => true
  | _ :: _, [] => false
  | a :: as, b :: bs => a == b && startsWithL as bs

/-- `n` occurs contiguously inside `h`. -/
def containsSub (n h : List Char) : Bool :=
  match h with
  | [] => startsWithL n []
  | _ :: t => startsWithL n h || containsSub n t

/-- Split at every separator character (Python `str.split(sep)` semantics:
empty chunks are kept). The first argument accumulates the current chunk in
reverse. -/
def splitByAux (p : Char → Bool) (acc : List Char) : List Char → List String
  | [] => [String.mk acc.reverse]
  | c :: rest =>
    if p c then String.mk acc.reverse :: splitByAux p [] rest
    else splitByAux p (c :: acc) rest

/-- Split a character list at every character satisfying `p`, keeping empty
chunks (as Python `str.split(sep)` and Lean `String.split` do). -/
def splitBy (p : Char → Bool) (l : List Char) : List String :=
  splitByAux p [] l

/-- Python `s.split(sep)` for a one-character separator. -/
def splitOnChar (sep : Char) (l : List Char) : List String :=
  splitBy (· == sep) l

/-- `String.intercalate` (structural). -/
def joinWith (sep : String) : List String → String
  | [] => ""
  | [p] => p
  | p :: rest => p ++ sep ++ joinWith sep rest

/-- Character comparison used by SQL `LIKE` (`ci = true` gives `ILIKE`). -/
def likeChars (ci : Bool) (a b : Char) : Bool :=
  if ci then a.toLower == b.toLower else a == b

/-- SQL `LIKE` / `ILIKE` pattern matching with explicit fuel (every recursive
call shrinks `p.length + s.length`, so `p.length + s.length + 1` units of fuel
always suffice and the `0` branch is unreachable from `likeMatchL`): `%`
matches any run of characters, `_` matches exactly one character, every other
pattern character matches itself (case-insensitively when `ci` is set). -/
def likeMatchFuel (ci : Bool) : Nat → List Char → List Char → Bool
  | 0, _, _ => false
  | fuel + 1, p, s =>
    match p, s with
    | [], [] => true
    | [], _ :: _ => false
    | '%' :: ps, [] => likeMatchFuel ci fuel ps []
    | '%' :: ps, c :: cs =>
      likeMatchFuel ci fuel ps (c :: cs) || likeMatchFuel ci fuel ('%' :: ps) cs
    | '_' :: _, [] => false
    | '_' :: ps, _ :: cs => likeMatchFuel ci fuel ps cs
    | _ :: _, [] => false
    | c :: ps, d :: cs => likeChars ci c d && likeMatchFuel ci fuel ps cs

/-- SQL `LIKE` / `ILIKE` pattern matching. -/
def likeMatchL (ci : Bool) (p s : List Char) : Bool :=
  likeMatchFuel ci (p.length + s.length + 1) p s

/-- `value ILIKE pattern` (PostgreSQL, case-insensitive). -/
def sqlIlike (pattern value : String) : Bool :=
  likeMatchL true pattern.toList value.toList

/-- `value LIKE pattern` (PostgreSQL, case-sensitive). -/
def sqlLike (pattern value : String) : Bool :=
  likeMatchL false pattern.toList value.toList

/-! ## `_normalize_path` (api_db_utils.py, lines 716-738) -/

/-- `re.sub(r'/+', '/', ·)`: collapse every run of slashes to a single slash
(a slash directly followed by another slash is dropped, keeping one slash per
run). -/
def collapseSlashes : List Char → List Char
  | [] => []
  | [a] => [a]
  | a :: b :: t =>
    if a = '/' ∧ b = '/' then collapseSlashes (b :: t)
    else a :: collapseSlashes (b :: t)

/-- Python `str.rstrip(c)`: drop every trailing occurrence of `c`. -/
def rstripAll (c : Char) (l : List Char) : List Char :=
  (l.reverse.dropWhile (· = c)).reverse

/-- `if not normalized.startswith('/'): normalized = '/' + normalized`. -/
def forceLeadingSlash (l : List Char) : List Char :=
  if l.head? = some '/' then l else '/' :: l

/-- `if len(normalized) > 1 and normalized.endswith('/'): normalized =
normalized.rstrip('/')`. -/
def stripTrailingSlashesCond (l : List Char) : List Char :=
  if 1 < l.length ∧ l.getLast? = some '/' then rstripAll '/' l else l

/-- The trailing-slash step as the specification words it: strip *a* trailing
slash unless the path is root. -/
def dropOneTrailingSlashCond (l : List Char) : List Char :=
  if 1 < l.length ∧ l.getLast? = some '/' then l.dropLast else l

/-- `_normalize_path` from the source: empty input maps to `"/"`; otherwise
the whitespace-stripped input has its slash runs collapsed, a leading slash is
ensured, and (when longer than one character) all trailing slashes are
stripped. -/
def normalizePath (path : String) : String :=
  if path = "" then "/"
  else String.mk
    (stripTrailingSlashesCond (forceLeadingSlash (collapseSlashes (pyStripL path.toList))))

/-- The normalization described by the specification's words, with no
whitespace handling: collapse repeated slashes, force a single leading slash,
strip a trailing slash unless the result is the root path. -/
def specNormalizePath (path : String) : String :=
  String.mk (dropOneTrailingSlashCond (forceLeadingSlash (collapseSlashes path.toList)))

/-! ## Catalog rows (schema.py `endpoints` table) -/

/-- A row of the `endpoints` table. Nullable text columns are modelled as
plain strings (`""` for absent text does not matter to any claim). -/
structure EndpointRow where
  id : Nat
  path : String
  method : String
  description : String
  category : String
  summary : String
  tags : String
  keywords : String
deriving DecidableEq, Repr

/-! ## Segment classification (api_db_utils.py, lines 616-714) -/

/-- `_is_known_path_segment`: the segment appears as a literal component of a
catalog path, detected with `path LIKE '%/<segment>%'` (case-sensitive). The
Python memoization cache is irrelevant to the pure result and is omitted. -/
def isKnownPathSegment (rows : List EndpointRow) (segment : String) : Bool :=
  if segment = "" then false
  else rows.any fun r => sqlLike ("%/" ++ segment ++ "%") r.path

/-- Regex `^\d+$`. -/
def pureDigits (s : String) : Bool :=
  !s.isEmpty && s.toList.all (·.isDigit)

/-- Character class `[a-f0-9]` under `re.IGNORECASE`. -/
def isHexDigitChar (c : Char) : Bool :=
  c.isDigit || ('a' ≤ c && c ≤ 'f') || ('A' ≤ c && c ≤ 'F')

/-- Regex `^[a-f0-9]{8}-[a-f0-9]{4}-[a-f0-9]{4}-[a-f0-9]{4}-[a-f0-9]{12}$`
with `re.IGNORECASE`: hex groups contain no hyphen, so the match is equivalent
to splitting on `-` into exactly five hex groups of lengths 8-4-4-4-12. -/
def isHexUuid (s : String) : Bool :=
  match splitOnChar '-' s.toList with
  | [a, b, c, d, e] =>
    a.length == 8 && b.length == 4 && c.length == 4 && d.length == 4 &&
    e.length == 12 && a.toList.all isHexDigitChar && b.toList.all isHexDigitChar &&
    c.toList.all isHexDigitChar && d.toList.all isHexDigitChar &&
    e.toList.all isHexDigitChar
  | _ => false

/-- Regex character class `\w` (ASCII fragment). -/
def isWordChar (c : Char) : Bool :=
  c.isAlphanum || c == '_'

/-- Regex `^[A-Z]{2,4}-[\w\-]+$` with `re.IGNORECASE`, as the code has it:
since the letter block is maximal up to the hyphen, the match is equivalent to
a leading run of 2-4 letters (either case), a hyphen, and a non-empty suffix
of word characters and hyphens. -/
def acronymIdCode (s : String) : Bool :=
  let cs := s.toList
  let letters := cs.takeWhile (·.isAlpha)
  (decide (2 ≤ letters.length) && decide (letters.length ≤ 4)) &&
  match cs.drop letters.length with
  | '-' :: sfx => !sfx.isEmpty && sfx.all fun c => isWordChar c || c == '-'
  | _ => false

/-- The same heuristic as the specification words it: 2-4 *uppercase* letters,
a hyphen, and a non-empty *alphanumeric* suffix. -/
def acronymIdSpec (s : String) : Bool :=
  let cs := s.toList
  let letters := cs.takeWhile fun c => 'A' ≤ c && c ≤ 'Z'
  (decide (2 ≤ letters.length) && decide (letters.length ≤ 4)) &&
  match cs.drop letters.length with
  | '-' :: sfx => !sfx.isEmpty && sfx.all (·.isAlphanum)
  | _ => false

/-- `len(segment) >= 8 and ^[a-zA-Z0-9]+$ and re.search(\d) and re.search([a-zA-Z])`. -/
def longAlnumId (s : String) : Bool :=
  decide (8 ≤ s.length) && s.toList.all (·.isAlphanum) &&
  s.toList.any (·.isDigit) && s.toList.any (·.isAlpha)

/-- `len(segment) >= 10 and ^[A-Za-z0-9+/=_-]+$`. -/
def base64LikeId (s : String) : Bool :=
  decide (10 ≤ s.length) &&
  s.toList.all fun c =>
    c.isAlphanum || c == '+' || c == '/' || c == '=' || c == '_' || c == '-'

/-- Disjunction of the five value heuristics exactly as the code tests them. -/
def codeSegmentHeuristic (s : String) : Bool :=
  pureDigits s || isHexUuid s || acronymIdCode s || longAlnumId s || base64LikeId s

/-- Disjunction of the five heuristics as the specification words them. -/
def specSegmentHeuristic (s : String) : Bool :=
  pureDigits s || isHexUuid s || acronymIdSpec s || longAlnumId s || base64LikeId s

/-- `_convert_segment_to_parameter`: known catalog literals are kept; then the
five value heuristics are tried in order; otherwise the segment is kept. -/
def convertSegmentToParameter (rows : List EndpointRow) (segment : String) : String :=
  if segment = "" then segment
  else if isKnownPathSegment rows segment then segment
  else if pureDigits segment then "{id}"
  else if isHexUuid segment then "{id}"
  else if acronymIdCode segment then "{id}"
  else if longAlnumId segment then "{id}"
  else if base64LikeId segment then "{id}"
  else segment

/-- `_convert_to_parameterized_path`: strip trailing slashes, ensure a leading
slash, classify each non-empty segment, and rejoin. -/
def convertToParameterizedPath (rows : List EndpointRow) (path : String) : String :=
  if path = "" || path = "/" then path
  else
    let np := String.mk (rstripAll '/' path.toList)
    let np := if startsWithL "/".toList np.toList then np else "/" ++ np
    let segs := splitOnChar '/' np.toList
    joinWith "/"
      (segs.map fun seg => if seg = "" then seg else convertSegmentToParameter rows seg)

/-- The canonical replacement text of `_convert_to_generic_pattern`. -/
def paramMarker : String := "{param}"

/-- Scanner for `re.sub(r'\{[^}]+\}', '{param}', ·)` with explicit fuel (each
recursive call consumes at least one input character, so `l.length` units of
fuel always suffice; with the invariant `l.length ≤ fuel`, the `0` branch only
ever sees the empty list, which it returns): at an opening brace with a
non-empty brace-free body and a closing brace, substitute and continue after
the closing brace; otherwise advance one character. -/
def genericizeFuel : Nat → List Char → List Char
  | 0, l => l
  | fuel + 1, l =>
    match l with
    | [] => []
    | c :: rest =>
      if c = '\x7b' then
        match rest.dropWhile (· ≠ '\x7d') with
        | '\x7d' :: tail =>
          if rest.takeWhile (· ≠ '\x7d') = [] then c :: genericizeFuel fuel rest
          else paramMarker.toList ++ genericizeFuel fuel tail
        | _ => c :: genericizeFuel fuel rest
      else c :: genericizeFuel fuel rest

/-- The brace-placeholder substitution scanner. -/
def genericizeAux (l : List Char) : List Char :=
  genericizeFuel l.length l

/-- `_convert_to_generic_pattern`: empty paths pass through, every
`{...}` placeholder becomes `{param}`. -/
def genericizePath (path : String) : String :=
  if path = "" then path
  else String.mk (genericizeAux path.toList)

/-! ## Catalog children and hydration (api_db_utils.py, lines 130-251) -/

/-- A row of the `parameters` table. -/
structure ParameterRow where
  id : Nat
  endpointId : Nat
  name : String
  location : String
  required : Bool
  type : String
  description : String
deriving DecidableEq, Repr

/-- A row of the `request_bodies` table (`schema` / `example` are nullable). -/
structure RequestBodyRow where
  id : Nat
  endpointId : Nat
  schema : Option String
  exampleDoc : Option String
deriving DecidableEq, Repr

/-- A row of the `response_bodies` table. -/
structure ResponseBodyRow where
  id : Nat
  endpointId : Nat
  statusCode : String
  description : String
  schema : Option String
  exampleDoc : Option String
deriving DecidableEq, Repr

/-- The read-mostly catalog: the four tables, in storage scan order. -/
structure Catalog where
  endpoints : List EndpointRow
  parameters : List ParameterRow
  requestBodies : List RequestBodyRow
  responseBodies : List ResponseBodyRow
deriving DecidableEq, Repr

/-- Result of the best-effort `json.loads` on a stored document: either the
parsed document (represented by its source text) or the raw text kept after a
`JSONDecodeError`. -/
inductive ParsedField where
  | json (doc : String) : ParsedField
  | raw (text : String) : ParsedField
deriving DecidableEq, Repr

/-- Best-effort deserialization of a nullable text column: absent and falsy
(empty) values are not parsed; otherwise `json.loads` is attempted through the
`parseOk` oracle and the raw text is kept on failure. -/
def hydrateField (parseOk : String → Bool) : Option String → Option ParsedField
  | none => none
  | some s => if s = "" then some (.raw s)
              else if parseOk s then some (.json s) else some (.raw s)

/-- A request body after hydration. -/
structure HydratedRequestBody where
  id : Nat
  endpointId : Nat
  schema : Option ParsedField
  exampleDoc : Option ParsedField
deriving DecidableEq, Repr

/-- A response body after hydration. -/
structure HydratedResponseBody where
  id : Nat
  endpointId : Nat
  statusCode : String
  description : String
  schema : Option ParsedField
  exampleDoc : Option ParsedField
deriving DecidableEq, Repr

/-- Hydration of one request-body row. -/
def hydrateRequestBody (parseOk : String → Bool) (rb : RequestBodyRow) :
    HydratedRequestBody :=
  ⟨rb.id, rb.endpointId, hydrateField parseOk rb.schema, hydrateField parseOk rb.exampleDoc⟩

/-- Hydration of one response-body row. -/
def hydrateResponseBody (parseOk : String → Bool) (rb : ResponseBodyRow) :
    HydratedResponseBody :=
  ⟨rb.id, rb.endpointId, rb.statusCode, rb.description,
   hydrateField parseOk rb.schema, hydrateField parseOk rb.exampleDoc⟩

/-- The dictionary assembled by `get_endpoint_details`. -/
structure EndpointDetails where
  endpoint : EndpointRow
  parameters : List ParameterRow
  requestBody : Option HydratedRequestBody
  responseBodies : List HydratedResponseBody
deriving DecidableEq, Repr

/-- `get_endpoint_details`: look the endpoint up by id (`fetchone` takes the
first row), collect its parameters, the first request body and all response
bodies, parsing schema/example documents best-effort. The empty dictionary
returned by the Python code for an unknown id is modelled as `none`. -/
def getEndpointDetails (parseOk : String → Bool) (cat : Catalog) (eid : Nat) :
    Option EndpointDetails :=
  match cat.endpoints.find? (fun r => r.id == eid) with
  | none => none
  | some row =>
    some { endpoint := row
           parameters := cat.parameters.filter (fun p => p.endpointId == eid)
           requestBody := (cat.requestBodies.find? (fun rb => rb.endpointId == eid)).map
             (hydrateRequestBody parseOk)
           responseBodies := (cat.responseBodies.filter (fun rb => rb.endpointId == eid)).map
             (hydrateResponseBody parseOk) }

/-- `find_endpoint_by_path_method`: normalize the path, try the exact
case-insensitive match (`path ILIKE :path AND method = :method` with the
method lower-cased, `fetchone` taking the first row); otherwise parameterize
and genericize the path, and only when genericizing changed something, scan
the same-method rows for the first with the same generic pattern. The final
`result.fetchone()` of the Python code re-reads an exhausted cursor and hence
always yields `None`. -/
def findEndpointByPathMethod (parseOk : String → Bool) (cat : Catalog)
    (path method : String) : Option EndpointDetails :=
  match cat.endpoints.find?
      (fun r => sqlIlike (normalizePath path) r.path && r.method == pyLower method) with
  | some row => getEndpointDetails parseOk cat row.id
  | none =>
    if genericizePath (convertToParameterizedPath cat.endpoints (normalizePath path)) ≠
        convertToParameterizedPath cat.endpoints (normalizePath path) then
      match (cat.endpoints.filter (fun r => r.method == pyLower method)).find?
          (fun r => genericizePath r.path ==
            genericizePath (convertToParameterizedPath cat.endpoints (normalizePath path))) with
      | some row => getEndpointDetails parseOk cat row.id
      | none => none
    else none

/-! ## An insertion sort modelling SQL `ORDER BY` -/

/-- Insert `a` into `l` before the first element it is `le`-below. -/
def insertLe (le : α → α → Bool) (a : α) : List α → List α
  | [] => [a]
  | b :: l => if le a b then a :: b :: l else b :: insertLe le a l

/-- Insertion sort by the boolean relation `le`. -/
def sortLe (le : α → α → Bool) : List α → List α
  | [] => []
  | a :: l => insertLe le a (sortLe le l)

/-! ## `search_endpoints` (api_db_utils.py, lines 85-128) -/

/-- The substring OR-match of the `search_endpoints` fallback:
`path ILIKE :pattern OR description ILIKE :pattern OR tags ILIKE :pattern
OR summary ILIKE :pattern` with pattern `%query%`. -/
def seMatches (q : String) (r : EndpointRow) : Bool :=
  let pat := "%" ++ q ++ "%"
  sqlIlike pat r.path || sqlIlike pat r.description ||
  sqlIlike pat r.tags || sqlIlike pat r.summary

/-- `ORDER BY category, path` of the `search_endpoints` fallback. -/
def seOrder (r1 r2 : EndpointRow) : Bool :=
  decide (r1.category < r2.category ∨ (r1.category = r2.category ∧ r1.path ≤ r2.path))

/-- `search_endpoints`: when full-text search is available, try the ranked
tier (`LIMIT 50`; an exception is swallowed, models as empty); when it yields
rows, return them, otherwise fall back to the uncapped substring OR-match in a
separate session, whose storage failure propagates. `hasFT` models
`has_fulltext_search()`, `ranked` the rows of the ranked SQL query, and
`fallbackOk` whether the fallback session succeeds. -/
def searchEndpoints (rows : List EndpointRow) (hasFT : Bool)
    (ranked : Except Unit (List EndpointRow)) (fallbackOk : Bool)
    (q : String) : Except Unit (List EndpointRow) :=
  match (if hasFT then (match ranked with | .ok l => l.take 50 | .error _ => []) else []) with
  | a :: as => .ok (a :: as)
  | [] =>
    if fallbackOk then .ok (sortLe seOrder (rows.filter (seMatches q)))
    else .error ()

/-! ## `search_by_natural_language` (api_db_utils.py, lines 315-420) -/

/-- The stopword set of the keyword fallback, exactly as listed in the code. -/
def nlStopwords : List String :=
  ["the", "a", "an", "and", "or", "but", "in", "on", "at", "to", "for", "with", "by",
   "about", "like", "from", "of", "as", "is", "are", "was", "were", "be", "been", "being",
   "have", "has", "had", "do", "does", "did", "will", "would", "should", "could", "can",
   "i", "you", "he", "she", "it", "we", "they", "this", "that", "these", "those",
   "get", "find", "show", "list", "give", "me", "all", "some", "any", "how", "what",
   "when", "where", "why"]

/-- `query_lower.split()` then drop stopwords and words shorter than 3
characters. -/
def nlFilteredKeywords (queryLower : String) : List String :=
  ((splitBy pyIsSpace queryLower.toList).filter (· ≠ "")).filter
    (fun w => !nlStopwords.contains w && decide (3 ≤ w.length))

/-- One keyword matching one row: `ILIKE '%keyword%'` over path, description,
tags and summary. -/
def rowMatchesKeyword (r : EndpointRow) (kw : String) : Bool :=
  let pat := "%" ++ kw ++ "%"
  sqlIlike pat r.path || sqlIlike pat r.description ||
  sqlIlike pat r.tags || sqlIlike pat r.summary

/-- The `ORDER BY CASE ... END` key of the keyword fallback, computed from the
first surviving keyword: summary 1, description 2, path 3, tags 4, else 5. -/
def nlPriority (firstKw : String) (r : EndpointRow) : Nat :=
  let pat := "%" ++ firstKw ++ "%"
  if sqlIlike pat r.summary then 1
  else if sqlIlike pat r.description then 2
  else if sqlIlike pat r.path then 3
  else if sqlIlike pat r.tags then 4
  else 5

/-- `search_by_natural_language`: lower-case and strip the query (empty means
no results); when full-text search is available try the `websearch_to_tsquery`
tier then the `plainto_tsquery` tier, each `LIMIT limit`, each swallowing its
own failure as zero rows; finally the keyword fallback: tokenize, drop
stopwords and short tokens (none left means no results, before any session is
opened), filter rows any of whose four fields matches any keyword, order by
the priority of the first keyword, `LIMIT limit`. A storage failure of this
final tier (`fallbackOk = false`) propagates. -/
def searchByNaturalLanguage (rows : List EndpointRow) (hasFT : Bool)
    (t1 t2 : Except Unit (List EndpointRow)) (fallbackOk : Bool)
    (query : String) (lim : Nat) : Except Unit (List EndpointRow) :=
  if pyStrip (pyLower query) = "" then .ok []
  else
    match (if hasFT then (match t1 with | .ok l => l.take lim | .error _ => []) else []) with
    | a :: as => .ok (a :: as)
    | [] =>
      match (if hasFT then (match t2 with | .ok l => l.take lim | .error _ => []) else []) with
      | b :: bs => .ok (b :: bs)
      | [] =>
        match nlFilteredKeywords (pyStrip (pyLower query)) with
        | [] => .ok []
        | k0 :: rest =>
          if fallbackOk then
            .ok ((sortLe (fun x y => decide (nlPriority k0 x ≤ nlPriority k0 y))
              (rows.filter (fun r => (k0 :: rest).any (rowMatchesKeyword r)))).take lim)
          else .error ()

/-! ## The cached-query store (cached_queries_db.py) -/

/-- A row of the `saved_queries` table. `params` and `data` are opaque JSON
documents, modelled by their (optional) text. -/
structure SQRow where
  id : Nat
  description : String
  path : String
  method : String
  params : Option String
  data : Option String
  timestamp : Nat
  usage_count : Nat
deriving DecidableEq, Repr

/-- The saved-query store: the rows in storage scan order together with the
next id the primary-key sequence will hand out. -/
structure SQStore where
  rows : List SQRow
  nextId : Nat
deriving DecidableEq, Repr

/-- Apply `f` to the first element satisfying `p` (the ORM `.first()` row). -/
def updateFirst (p : α → Bool) (f : α → α) : List α → List α
  | [] => []
  | a :: l => if p a then f a :: l else a :: updateFirst p f l

/-- The `(path, method)` filter used by `save_query` and `find_query`. -/
def sqMatches (path method : String) (r : SQRow) : Bool :=
  r.path == path && r.method == method

/-- The overwrite applied by `save_query` to an existing row: description,
params and data are replaced, `usage_count` is incremented as the SQL-level
expression `usage_count + 1`, the timestamp is refreshed. -/
def sqBump (now : Nat) (description : String) (params data : Option String)
    (r : SQRow) : SQRow :=
  { r with usage_count := r.usage_count + 1, timestamp := now,
           params := params, data := data, description := description }

/-- `save_query`: if a row exists for `(path, method)`, overwrite description/
params/data, increment `usage_count`, refresh the timestamp and return its id;
else insert a new row with `usage_count = 1` and return the new id. -/
def saveQuery (s : SQStore) (now : Nat) (description path method : String)
    (params data : Option String) : Nat × SQStore :=
  match s.rows.find? (sqMatches path method) with
  | some existing =>
    (existing.id,
     { s with rows := updateFirst (sqMatches path method)
                        (sqBump now description params data) s.rows })
  | none =>
    (s.nextId,
     { rows := s.rows ++ [⟨s.nextId, description, path, method, params, data, now, 1⟩],
       nextId := s.nextId + 1 })

/-- `find_query`: read-only lookup of the first row for `(path, method)`. -/
def findQuery (s : SQStore) (path method : String) : Option SQRow :=
  s.rows.find? (sqMatches path method)

/-- `ORDER BY usage_count DESC, timestamp DESC`. -/
def sqOrder (r1 r2 : SQRow) : Bool :=
  decide (r2.usage_count < r1.usage_count ∨
    (r1.usage_count = r2.usage_count ∧ r2.timestamp ≤ r1.timestamp))

/-- `search_queries`: case-insensitive substring match over description and
path, ordered by usage count then timestamp, both descending. Read-only. -/
def searchQueries (s : SQStore) (term : String) : List SQRow :=
  let pat := "%" ++ term ++ "%"
  sortLe sqOrder
    (s.rows.filter (fun r => sqlIlike pat r.description || sqlIlike pat r.path))

/-- `get_all_queries`: every row, same ordering. Read-only. -/
def getAllQueries (s : SQStore) : List SQRow :=
  sortLe sqOrder s.rows

/-- `increment_usage`: atomic `usage_count += 1` with timestamp refresh on the
rows with the given id; an absent id is a logged no-op. -/
def incrementUsage (s : SQStore) (now : Nat) (qid : Nat) : SQStore :=
  { s with rows :=
      s.rows.map fun r =>
        if r.id == qid then
          { r with usage_count := r.usage_count + 1, timestamp := now }
        else r }

/-- `delete_query`: removes the rows with the given id. The Python function
body contains no `return` statement, so the declared boolean is never
produced: the call evaluates to `None` on every input, modelled as `none`. -/
def deleteQuery (s : SQStore) (qid : Nat) : Option Bool × SQStore :=
  (none, { s with rows := s.rows.filter (fun r => !(r.id == qid)) })

/-- `clear_all`: removes all rows and returns the number removed. -/
def clearAll (s : SQStore) : Nat × SQStore :=
  (s.rows.length, { s with rows := [] })

/-- The serving operations of the cached-query store. -/
inductive StoreOp where
  | save (now : Nat) (description path method : String) (params data : Option String)
  | findOp (path method : String)
  | searchOp (term : String)
  | getAll
  | incr (now : Nat) (qid : Nat)
  | deleteOp (qid : Nat)
  | clearOp
deriving DecidableEq, Repr

/-- The state transition of each store operation (pure reads leave the store
unchanged). -/
def applyStoreOp (op : StoreOp) (s : SQStore) : SQStore :=
  match op with
  | .save now d p m params data => (saveQuery s now d p m params data).2
  | .findOp _ _ => s
  | .searchOp _ => s
  | .getAll => s
  | .incr now qid => incrementUsage s now qid
  | .deleteOp qid => (deleteQuery s qid).2
  | .clearOp => (clearAll s).2

/-! ## Specification-side predicates and concrete instances

Definitions in this section formalize the *specification's* wording (for
comparison against the source embedding above) or provide the concrete inputs
used by the final theorems. -/

/-- Adjacent slashes never occur (invariant of `collapseSlashes` outputs). -/
def noDoubleSlash : List Char → Prop
  | [] => True
  | [_] => True
  | a :: b :: l => ¬(a = '/' ∧ b = '/') ∧ noDoubleSlash (b :: l)

/-- Case-insensitive substring containment, the specification's reading of a
token "being a substring of" a field. -/
def ciSubstr (needle hay : String) : Bool :=
  containsSub (pyLower needle).toList (pyLower hay).toList

/-- The specification's matching condition for the keyword fallback: some
surviving token is a substring of path, description, tags, or summary. -/
def claimSubstringMatch (kws : List String) (r : EndpointRow) : Bool :=
  kws.any fun kw =>
    ciSubstr kw r.path || ciSubstr kw r.description ||
    ciSubstr kw r.tags || ciSubstr kw r.summary

/-- 51 catalog rows, all matching the substring query `"p"`. -/
def c1Rows : List EndpointRow :=
  (List.range 51).map fun i => ⟨i, "/p", "get", "", "", "", "", ""⟩

/-- Two catalog rows matching the substring query `"p"`, with categories out
of order in storage. -/
def c1WitnessRows : List EndpointRow :=
  [⟨1, "/pz", "get", "", "b", "", "", ""⟩, ⟨2, "/pa", "get", "", "a", "", "", ""⟩]

/-- A store holding a single saved query with id 1. -/
def c2Store : SQStore :=
  ⟨[⟨1, "open tickets", "/service/tickets", "GET", none, none, 100, 1⟩], 2⟩

/-- A catalog whose only endpoint has a non-normalized (trailing-slash) path. -/
def c6Cat : Catalog :=
  ⟨[⟨1, "/a/", "get", "", "", "", "", ""⟩], [], [], []⟩

/-- A catalog whose only endpoint has a normalized path and lowercase method. -/
def c6GoodCat : Catalog :=
  ⟨[⟨1, "/a", "get", "", "", "", "", ""⟩], [], [], []⟩

/-- A single catalog row whose path contains `abc`. -/
def c7Row : EndpointRow :=
  ⟨1, "/abc", "get", "", "", "", "", ""⟩

/-- A store holding a single saved query with id 1 and usage count 1. -/
def c9Store : SQStore :=
  ⟨[⟨1, "d", "/p", "get", none, none, 50, 1⟩], 2⟩

/-! ## General lemmas about the `ORDER BY` model -/

theorem length_insertLe (le : α → α → Bool) (a : α) (l : List α) :
    (insertLe le a l).length = l.length + 1 := by
  induction l with
  | nil => rfl
  | cons b bs ih =>
    by_cases h : le a b
    · simp [insertLe, h]
    · simp [insertLe, h, ih]

theorem length_sortLe (le : α → α → Bool) (l : List α) :
    (sortLe le l).length = l.length := by
  induction l with
  | nil => rfl
  | cons a as ih => simp [sortLe, length_insertLe, ih]

theorem mem_insertLe {le : α → α → Bool} {a x : α} {l : List α} :
    x ∈ insertLe le a l ↔ x = a ∨ x ∈ l := by
  induction l with
  | nil => simp [insertLe]
  | cons b bs ih =>
    by_cases h : le a b
    · simp [insertLe, h]
    · simp only [insertLe, h, if_neg, Bool.false_eq_true, if_false, List.mem_cons, ih]
      tauto

theorem mem_sortLe {le : α → α → Bool} {x : α} {l : List α} :
    x ∈ sortLe le l ↔ x ∈ l := by
  induction l with
  | nil => simp [sortLe]
  | cons a as ih => simp [sortLe, mem_insertLe, ih]

theorem pairwise_insertLe {le : α → α → Bool}
    (htot : ∀ x y, le x y = true ∨ le y x = true)
    (htrans : ∀ x y z, le x y = true → le y z = true → le x z = true)
    {a : α} {l : List α} (hl : l.Pairwise (fun x y => le x y = true)) :
    (insertLe le a l).Pairwise (fun x y => le x y = true) := by
  induction l with
  | nil => simp [insertLe]
  | cons b bs ih =>
    rcases List.pairwise_cons.mp hl with ⟨hb, hbs⟩
    by_cases h : le a b
    · simp only [insertLe, h, if_true]
      refine List.pairwise_cons.mpr ⟨?_, hl⟩
      intro y hy
      rcases List.mem_cons.mp hy with rfl | hy
      · exact h
      · exact htrans a b y h (hb y hy)
    · simp only [insertLe, h, Bool.false_eq_true, if_false]
      refine List.pairwise_cons.mpr ⟨?_, ih hbs⟩
      intro y hy
      rcases mem_insertLe.mp hy with heq | hy
      · rcases htot a b with h' | h'
        · exact absurd h' h
        · rw [heq]; exact h'
      · exact hb y hy

theorem pairwise_sortLe (le : α → α → Bool)
    (htot : ∀ x y, le x y = true ∨ le y x = true)
    (htrans : ∀ x y z, le x y = true → le y z = true → le x z = true)
    (l : List α) : (sortLe le l).Pairwise (fun x y => le x y = true) := by
  induction l with
  | nil => simp [sortLe]
  | cons a as ih => exact pairwise_insertLe htot htrans ih

theorem perm_insertLe (le : α → α → Bool) (a : α) (l : List α) :
    (insertLe le a l).Perm (a :: l) := by
  induction l with
  | nil => exact List.Perm.refl _
  | cons b bs ih =>
    by_cases h : le a b = true
    · rw [show insertLe le a (b :: bs) = a :: b :: bs from by simp [insertLe, h]]
    · rw [show insertLe le a (b :: bs) = b :: insertLe le a bs from by simp [insertLe, h]]
      exact (List.Perm.cons b ih).trans (List.Perm.swap a b bs)

theorem perm_sortLe (le : α → α → Bool) (l : List α) : (sortLe le l).Perm l := by
  induction l with
  | nil => exact List.Perm.refl _
  | cons a t ih => exact (perm_insertLe le a (sortLe le t)).trans (List.Perm.cons a ih)

theorem seOrder_total (a b : EndpointRow) : seOrder a b = true ∨ seOrder b a = true := by
  unfold seOrder
  rcases lt_trichotomy a.category b.category with h | h | h
  · exact Or.inl (decide_eq_true (Or.inl h))
  · rcases le_total a.path b.path with hp | hp
    · exact Or.inl (decide_eq_true (Or.inr ⟨h, hp⟩))
    · exact Or.inr (decide_eq_true (Or.inr ⟨h.symm, hp⟩))
  · exact Or.inr (decide_eq_true (Or.inl h))

theorem seOrder_trans (a b c : EndpointRow)
    (hab : seOrder a b = true) (hbc : seOrder b c = true) : seOrder a c = true := by
  unfold seOrder at hab hbc ⊢
  have h1 := of_decide_eq_true hab
  have h2 := of_decide_eq_true hbc
  apply decide_eq_true
  rcases h1 with h1 | ⟨hc1, hp1⟩ <;> rcases h2 with h2 | ⟨hc2, hp2⟩
  · exact Or.inl (lt_trans h1 h2)
  · exact Or.inl (hc2 ▸ h1)
  · exact Or.inl (hc1 ▸ h2)
  · exact Or.inr ⟨hc1.trans hc2, le_trans hp1 hp2⟩

/-! ## Lemmas about `_normalize_path` -/

theorem collapse_cons_cons (a b : Char) (t : List Char) :
    collapseSlashes (a :: b :: t) =
      if a = '/' ∧ b = '/' then collapseSlashes (b :: t)
      else a :: collapseSlashes (b :: t) := by
  simp [collapseSlashes]

theorem collapse_head (a : Char) (t : List Char) :
    (collapseSlashes (a :: t)).head? = some a := by
  induction t generalizing a with
  | nil => rfl
  | cons b t' ih =>
    rw [collapse_cons_cons]
    by_cases h : a = '/' ∧ b = '/'
    · rw [if_pos h, ih b, h.1, h.2]
    · rw [if_neg h]
      rfl

theorem noDD_cons (a : Char) (l : List Char) (h1 : noDoubleSlash l)
    (h2 : a = '/' → l.head? ≠ some '/') : noDoubleSlash (a :: l) := by
  cases l with
  | nil => trivial
  | cons b bs =>
    refine ⟨?_, h1⟩
    rintro ⟨ha, hb⟩
    exact h2 ha (by simp [hb])

theorem collapse_noDD : ∀ l : List Char, noDoubleSlash (collapseSlashes l)
  | [] => by simp [collapseSlashes, noDoubleSlash]
  | [a] => by simp [collapseSlashes, noDoubleSlash]
  | a :: b :: t => by
    rw [collapse_cons_cons]
    by_cases h : a = '/' ∧ b = '/'
    · rw [if_pos h]
      exact collapse_noDD (b :: t)
    · rw [if_neg h]
      refine noDD_cons _ _ (collapse_noDD (b :: t)) ?_
      intro ha hh
      rw [collapse_head b t] at hh
      have hb : b = '/' := by simpa using hh
      exact h ⟨ha, hb⟩

theorem noDD_last_two : ∀ m : List Char, noDoubleSlash m → m.getLast? = some '/' →
    m.dropLast.getLast? ≠ some '/'
  | [] => by simp
  | [a] => by simp
  | a :: b :: t => by
    intro hnd hlast
    obtain ⟨hab, hnd'⟩ := hnd
    cases t with
    | nil =>
      have hb : b = '/' := by simpa using hlast
      have ha : a ≠ '/' := fun ha => hab ⟨ha, hb⟩
      simpa using ha
    | cons c t' =>
      have ih := noDD_last_two (b :: c :: t') hnd' (by simpa using hlast)
      simpa [List.getLast?_cons_cons] using ih

theorem rstrip_eq_dropLast (m : List Char) (hnd : noDoubleSlash m)
    (hlast : m.getLast? = some '/') : rstripAll '/' m = m.dropLast := by
  have hne : m ≠ [] := by
    intro h
    subst h
    simp at hlast
  have hgl : m.getLast hne = '/' := by
    have hq := List.getLast?_eq_getLast m hne
    rw [hq] at hlast
    exact Option.some.inj hlast
  have hrev : m.reverse = '/' :: m.dropLast.reverse := by
    conv_lhs => rw [← List.dropLast_append_getLast hne]
    rw [List.reverse_append, hgl]
    simp
  unfold rstripAll
  rw [hrev, List.dropWhile_cons_of_pos (by simp)]
  have hdlast : m.dropLast.getLast? ≠ some '/' := noDD_last_two m hnd hlast
  cases hdl : m.dropLast.reverse with
  | nil =>
    have : m.dropLast = [] := by simpa using congrArg List.reverse hdl
    simp [this]
  | cons x xs =>
    have hx : x ≠ '/' := by
      have hxl : m.dropLast.getLast? = some x := by
        rw [← List.head?_reverse, hdl]
        rfl
      intro hxeq
      rw [hxeq] at hxl
      exact hdlast hxl
    rw [List.dropWhile_cons_of_neg (by simp [hx]), ← hdl, List.reverse_reverse]

theorem stripCond_eq_dropCond (m : List Char) (hnd : noDoubleSlash m) :
    stripTrailingSlashesCond m = dropOneTrailingSlashCond m := by
  unfold stripTrailingSlashesCond dropOneTrailingSlashCond
  by_cases hc : 1 < m.length ∧ m.getLast? = some '/'
  · rw [if_pos hc, if_pos hc, rstrip_eq_dropLast m hnd hc.2]
  · rw [if_neg hc, if_neg hc]

theorem forceLeading_noDD (l : List Char) (h : noDoubleSlash l) :
    noDoubleSlash (forceLeadingSlash l) := by
  unfold forceLeadingSlash
  by_cases hh : l.head? = some '/'
  · rw [if_pos hh]
    exact h
  · rw [if_neg hh]
    exact noDD_cons '/' l h (fun _ => hh)

/-! ## Claim theorems -/

/-- Claim C8, counterexample: the claim describes `_normalize_path` as, for
every input string, exactly the composite "collapse repeated slashes, force a
single leading slash, strip a trailing slash unless root". The code first
strips surrounding whitespace, which that description omits: on `" a"` the
code yields `"/a"` while the described pipeline yields `"/ a"`. -/
theorem claim_C8_counterexample : normalizePath " a" ≠ specNormalizePath " a" := by
  decide

/-- Claim C8, amended: for every input string, `_normalize_path` first trims
leading and trailing whitespace and then collapses runs of repeated slashes to
one, forces a single leading slash, and strips the trailing slash unless the
result is the root path; in particular `normalize("//a//b/") = "/a/b"`,
`normalize("") = "/"`, and `normalize("a") = "/a"`. -/
theorem claim_C8_amended :
    (∀ s : String, normalizePath s = specNormalizePath (pyStrip s)) ∧
    normalizePath "//a//b/" = "/a/b" ∧ normalizePath "" = "/" ∧
    normalizePath "a" = "/a" := by
  refine ⟨?_, by decide, by decide, by decide⟩
  intro s
  by_cases hs : s = ""
  · subst hs
    decide
  · unfold normalizePath specNormalizePath pyStrip
    rw [if_neg hs]
    exact congrArg String.mk
      (stripCond_eq_dropCond _ (forceLeading_noDD _ (collapse_noDD (pyStripL s.toList))))

/-- Claim C5, counterexample: the claim's heuristics demand 2-4 *uppercase*
letters before the hyphen, but the code compiles its acronym regex with
`re.IGNORECASE`: the lowercase segment `"ab-c"` (not a known catalog literal,
and matching none of the claim's five heuristics) is nevertheless replaced by
the parameter marker. -/
theorem claim_C5_counterexample :
    isKnownPathSegment [] "ab-c" = false ∧
    convertSegmentToParameter [] "ab-c" ≠
      (if specSegmentHeuristic "ab-c" = true then "{id}" else "ab-c") := by
  decide

/-- Claim C5, amended: for every segment that is not a known catalog literal,
`_convert_segment_to_parameter` replaces it with the parameter marker exactly
when it is pure digits, or a canonical 8-4-4-4-12 hex UUID, or 2-4 letters of
either case followed by a hyphen and a non-empty suffix of word characters and
hyphens, or a length ≥ 8 alphanumeric string containing both a letter and a
digit, or a length ≥ 10 string drawn from a base64-like alphabet; any other
segment is returned unchanged, and
`parameterize("/finance/invoices/INV-2023-001") = "/finance/invoices/{id}"`
still holds. -/
theorem claim_C5_amended :
    (∀ (rows : List EndpointRow) (seg : String), isKnownPathSegment rows seg = false →
      convertSegmentToParameter rows seg =
        if codeSegmentHeuristic seg = true then "{id}" else seg) ∧
    convertToParameterizedPath [] "/finance/invoices/INV-2023-001" =
      "/finance/invoices/{id}" := by
  refine ⟨?_, by decide⟩
  intro rows seg hk
  by_cases h0 : seg = ""
  · subst h0
    have hc : convertSegmentToParameter rows "" = "" := by
      simp [convertSegmentToParameter]
    rw [hc]
    decide
  · by_cases h1 : pureDigits seg = true <;>
      by_cases h2 : isHexUuid seg = true <;>
      by_cases h3 : acronymIdCode seg = true <;>
      by_cases h4 : longAlnumId seg = true <;>
      by_cases h5 : base64LikeId seg = true <;>
      simp [convertSegmentToParameter, codeSegmentHeuristic, h0, hk, h1, h2, h3, h4, h5]

/-- Claim C5, amended, witness at the concrete segment `"XY-77"` with an empty
catalog: not a known literal, the acronym heuristic fires, result `"{id}"`. -/
theorem claim_C5_amended_witness :
    convertSegmentToParameter [] "XY-77" =
      (if codeSegmentHeuristic "XY-77" = true then "{id}" else "XY-77") :=
  claim_C5_amended.1 [] "XY-77" (by decide)

/-- Claim C10: whenever the parameterized form of the normalized caller path
equals its generic pattern (segment classification introduced no placeholder
and the path contained none), `find_endpoint_by_path_method` is decided by the
exact case-insensitive match alone: the structural-pattern scan is skipped and
the operation returns not-found exactly when the exact match finds no row. -/
theorem claim_C10 (parseOk : String → Bool) (cat : Catalog) (path method : String)
    (h : genericizePath (convertToParameterizedPath cat.endpoints (normalizePath path)) =
      convertToParameterizedPath cat.endpoints (normalizePath path)) :
    findEndpointByPathMethod parseOk cat path method =
      match cat.endpoints.find?
          (fun r => sqlIlike (normalizePath path) r.path && r.method == pyLower method) with
      | some row => getEndpointDetails parseOk cat row.id
      | none => none := by
  unfold findEndpointByPathMethod
  cases hf : cat.endpoints.find?
      (fun r => sqlIlike (normalizePath path) r.path && r.method == pyLower method) with
  | some row => rfl
  | none => rw [if_neg (fun hne => hne h)]

/-- Claim C10, witness: on an empty catalog, the path `/x` parameterizes to
itself (its generic form is unchanged) and resolution returns not-found. -/
theorem claim_C10_witness :
    findEndpointByPathMethod (fun _ => false) ⟨[], [], [], []⟩ "/x" "get" = none :=
  claim_C10 (fun _ => false) ⟨[], [], [], []⟩ "/x" "get" (by decide)

/-- Claim C6, counterexample: reflexivity of resolution fails for a catalog
row whose stored path is not in normalized form. The catalog `c6Cat` contains
the endpoint `("/a/", "get")`, yet resolving exactly that pair returns
not-found: the input is normalized to `"/a"`, which no longer matches the
stored `"/a/"` under the exact `ILIKE` comparison, and the parameterized path
introduces no placeholder, so the structural scan is skipped. -/
theorem claim_C6_counterexample :
    (⟨1, "/a/", "get", "", "", "", "", ""⟩ : EndpointRow) ∈ c6Cat.endpoints ∧
    findEndpointByPathMethod (fun _ => false) c6Cat "/a/" "get" = none := by
  exact ⟨by decide, rfl⟩

/-- Claim C6, amended: resolution on a catalog row's own (path, method) pair
returns that row hydrated with its parameters, request body, and response
bodies, provided the stored path is already in normalized form, the stored
method is lowercase, the row is the first catalog row matching its own exact
case-insensitive lookup, and the first carrying its id. -/
theorem claim_C6_amended (parseOk : String → Bool) (cat : Catalog) (row : EndpointRow)
    (hnorm : normalizePath row.path = row.path)
    (hmeth : pyLower row.method = row.method)
    (hfirst : cat.endpoints.find?
      (fun r => sqlIlike row.path r.path && r.method == row.method) = some row)
    (hid : cat.endpoints.find? (fun r => r.id == row.id) = some row) :
    findEndpointByPathMethod parseOk cat row.path row.method =
      some { endpoint := row
             parameters := cat.parameters.filter (fun p => p.endpointId == row.id)
             requestBody := (cat.requestBodies.find?
               (fun rb => rb.endpointId == row.id)).map (hydrateRequestBody parseOk)
             responseBodies := (cat.responseBodies.filter
               (fun rb => rb.endpointId == row.id)).map (hydrateResponseBody parseOk) } := by
  simp only [findEndpointByPathMethod, hnorm, hmeth, hfirst, getEndpointDetails, hid]

/-- Claim C6, amended, witness: the normalized-path catalog `c6GoodCat`
resolves its own row `("/a", "get")` back to that row, hydrated. -/
theorem claim_C6_amended_witness :
    findEndpointByPathMethod (fun _ => false) c6GoodCat "/a" "get" =
      some { endpoint := ⟨1, "/a", "get", "", "", "", "", ""⟩
             parameters := []
             requestBody := none
             responseBodies := [] } :=
  claim_C6_amended (fun _ => false) c6GoodCat ⟨1, "/a", "get", "", "", "", "", ""⟩
    (by decide) (by decide) (by decide) (by decide)

/-- Claim C1, counterexample: `search_endpoints` does not cap every tier at 50
results. Its substring fallback carries no `LIMIT`: on a 51-row catalog whose
rows all match the query (with full-text search unavailable), the fallback
returns all 51 rows. -/
theorem claim_C1_counterexample :
    ¬ ∀ (rows : List EndpointRow) (hasFT : Bool) (ranked : Except Unit (List EndpointRow))
        (fallbackOk : Bool) (q : String) (l : List EndpointRow),
      searchEndpoints rows hasFT ranked fallbackOk q = .ok l → l.length ≤ 50 := by
  intro hclaim
  have h := hclaim c1Rows false (.ok []) true "p"
    (sortLe seOrder (c1Rows.filter (seMatches "p"))) rfl
  rw [length_sortLe] at h
  have h51 : (c1Rows.filter (seMatches "p")).length = 51 := by decide
  omega

/-- Claim C1, amended: `search_endpoints` returns at most 50 results when the
ranked tier serves the query (its SQL carries `LIMIT 50`); when the substring
fallback serves it, the result is uncapped — it is a permutation of (hence
contains exactly, with multiplicity) the catalog rows matching the substring
OR-match over path/description/tags/summary, and it is ordered by category
then path. -/
theorem claim_C1_amended (rows : List EndpointRow) (hasFT : Bool)
    (ranked : Except Unit (List EndpointRow)) (fallbackOk : Bool) (q : String)
    (l : List EndpointRow) (h : searchEndpoints rows hasFT ranked fallbackOk q = .ok l) :
    l.length ≤ 50 ∨
      (l.Perm (rows.filter (seMatches q)) ∧
        (∀ r, r ∈ l ↔ (r ∈ rows ∧ seMatches q r = true)) ∧
        l.Pairwise (fun a b =>
          a.category < b.category ∨ (a.category = b.category ∧ a.path ≤ b.path))) := by
  unfold searchEndpoints at h
  have hbound :
      (if hasFT then (match ranked with | .ok x => x.take 50 | .error _ => []) else
        []).length ≤ 50 := by
    cases hasFT
    · simp
    · cases ranked with
      | ok x => simp only [if_true]; exact List.length_take_le 50 x
      | error e => simp
  cases hr : (if hasFT then (match ranked with | .ok x => x.take 50 | .error _ => []) else
      []) with
  | cons a as =>
    rw [hr] at h hbound
    rw [show Except.ok (ε := Unit) (a :: as) = .ok l ↔ a :: as = l from by
      constructor <;> intro hh <;> [injection hh; rw [hh]]] at h
    subst h
    exact Or.inl hbound
  | nil =>
    rw [hr] at h
    by_cases hf : fallbackOk
    · simp only [hf, if_true] at h
      have hl : l = sortLe seOrder (rows.filter (seMatches q)) := by
        injection h with h
        exact h.symm
      subst hl
      refine Or.inr ⟨perm_sortLe seOrder _, ?_, ?_⟩
      · intro r
        constructor
        · intro hr
          have hmem := mem_sortLe.mp hr
          exact ⟨(List.mem_filter.mp hmem).1, (List.mem_filter.mp hmem).2⟩
        · intro hr
          exact mem_sortLe.mpr (List.mem_filter.mpr ⟨hr.1, hr.2⟩)
      · have hs := pairwise_sortLe seOrder seOrder_total seOrder_trans
          (rows.filter (seMatches q))
        exact hs.imp (fun hab => by unfold seOrder at hab; exact of_decide_eq_true hab)
    · simp [hf] at h

/-- Claim C1, amended, witness: a two-row catalog with full-text search
unavailable is served by the fallback, which returns both matching rows in
category-then-path order. -/
theorem claim_C1_amended_witness :
    (sortLe seOrder (c1WitnessRows.filter (seMatches "p"))).length ≤ 50 ∨
      ((sortLe seOrder (c1WitnessRows.filter (seMatches "p"))).Perm
          (c1WitnessRows.filter (seMatches "p")) ∧
        (∀ r, r ∈ sortLe seOrder (c1WitnessRows.filter (seMatches "p")) ↔
          (r ∈ c1WitnessRows ∧ seMatches "p" r = true)) ∧
        (sortLe seOrder (c1WitnessRows.filter (seMatches "p"))).Pairwise (fun a b =>
          a.category < b.category ∨ (a.category = b.category ∧ a.path ≤ b.path))) :=
  claim_C1_amended c1WitnessRows false (.ok []) true "p"
    (sortLe seOrder (c1WitnessRows.filter (seMatches "p"))) rfl

/-- Claim C4: `search_by_natural_language` swallows a failure of either ranked
full-text tier — the failing tier contributes exactly as many rows as a tier
returning zero rows, so the cascade advances down to the substring fallback —
and every successfully returned list holds at most `limit` results. -/
theorem claim_C4 (rows : List EndpointRow) (t1 t2 : Except Unit (List EndpointRow))
    (fallbackOk : Bool) (query : String) (lim : Nat) :
    (searchByNaturalLanguage rows true (.error ()) t2 fallbackOk query lim
      = searchByNaturalLanguage rows true (.ok []) t2 fallbackOk query lim) ∧
    (searchByNaturalLanguage rows true t1 (.error ()) fallbackOk query lim
      = searchByNaturalLanguage rows true t1 (.ok []) fallbackOk query lim) ∧
    (∀ (hasFT : Bool) (l : List EndpointRow),
      searchByNaturalLanguage rows hasFT t1 t2 fallbackOk query lim = .ok l →
      l.length ≤ lim) := by
  refine ⟨?_, ?_, ?_⟩
  · simp [searchByNaturalLanguage]
  · by_cases hq : pyStrip (pyLower query) = ""
    · simp [searchByNaturalLanguage, hq]
    · unfold searchByNaturalLanguage
      rw [if_neg hq, if_neg hq]
      cases h1 : (if true then
          (match t1 with | Except.ok l => l.take lim | Except.error _ => []) else []) with
      | cons a as => rfl
      | nil => simp
  · intro hasFT l h
    unfold searchByNaturalLanguage at h
    by_cases hq : pyStrip (pyLower query) = ""
    · rw [if_pos hq] at h
      injection h with h
      subst h
      simp
    · rw [if_neg hq] at h
      have hb1 : (if hasFT then
          (match t1 with | Except.ok x => x.take lim | Except.error _ => []) else
            []).length ≤ lim := by
        cases hasFT
        · simp
        · cases t1 with
          | ok x => simp only [if_true]; exact List.length_take_le lim x
          | error e => simp
      cases hr1 : (if hasFT then
          (match t1 with | Except.ok x => x.take lim | Except.error _ => []) else []) with
      | cons a as =>
        rw [hr1] at hb1
        simp only [hr1] at h
        injection h with h
        subst h
        exact hb1
      | nil =>
        simp only [hr1] at h
        have hb2 : (if hasFT then
            (match t2 with | Except.ok x => x.take lim | Except.error _ => []) else
              []).length ≤ lim := by
          cases hasFT
          · simp
          · cases t2 with
            | ok x => simp only [if_true]; exact List.length_take_le lim x
            | error e => simp
        cases hr2 : (if hasFT then
            (match t2 with | Except.ok x => x.take lim | Except.error _ => []) else []) with
        | cons b bs =>
          rw [hr2] at hb2
          simp only [hr2] at h
          injection h with h
          subst h
          exact hb2
        | nil =>
          simp only [hr2] at h
          cases hk : nlFilteredKeywords (pyStrip (pyLower query)) with
          | nil =>
            simp only [hk] at h
            injection h with h
            subst h
            simp
          | cons k0 rest =>
            simp only [hk] at h
            by_cases hf : fallbackOk
            · simp only [hf, if_true] at h
              injection h with h
              subst h
              exact List.length_take_le lim _
            · simp [hf] at h

/-- Claim C4, witness: at a concrete query whose tokens are all shorter than
three characters, the cascade returns the empty list, within the limit. -/
theorem claim_C4_witness : ([] : List EndpointRow).length ≤ 3 :=
  (claim_C4 [] (.ok []) (.ok []) true "x" 3).2.2 true [] rfl

/-- Claim C7, counterexample: the keyword fallback does not return "only rows
where some surviving token is a substring of path, description, tags, or
summary". Tokens are interpolated into `ILIKE` patterns, so their `_` and `%`
act as wildcards: with both ranked tiers at zero rows, the query `"a_c"`
returns the row with path `"/abc"` although `"a_c"` is not a (case-
insensitive) substring of any of its four fields. -/
theorem claim_C7_counterexample :
    searchByNaturalLanguage [c7Row] true (.ok []) (.ok []) true "a_c" 5 = .ok [c7Row] ∧
    claimSubstringMatch (nlFilteredKeywords (pyStrip (pyLower "a_c"))) c7Row = false :=
  ⟨rfl, by decide⟩

/-- Claim C7, amended: when both ranked tiers yield zero rows, the keyword
fallback lower-cases and tokenizes the query, drops stopwords and tokens
shorter than 3 characters, returns the empty list when no tokens remain, and
otherwise returns only catalog rows where some surviving token matches path,
description, tags, or summary as a case-insensitive `LIKE` pattern
`%token%` (a literal substring whenever the token carries no `%`/`_`
wildcard), ordered by the field priority of the first surviving token
(summary, then description, then path, then tags, then none) and capped at
`limit`. -/
theorem claim_C7_amended (rows : List EndpointRow) (query : String) (lim : Nat)
    (l : List EndpointRow)
    (h : searchByNaturalLanguage rows true (.ok []) (.ok []) true query lim = .ok l) :
    l.length ≤ lim ∧
    (nlFilteredKeywords (pyStrip (pyLower query)) = [] → l = []) ∧
    (∀ r ∈ l, r ∈ rows ∧
      ∃ kw ∈ nlFilteredKeywords (pyStrip (pyLower query)), rowMatchesKeyword r kw = true) ∧
    (∀ k0 rest, nlFilteredKeywords (pyStrip (pyLower query)) = k0 :: rest →
      l.Pairwise (fun a b => nlPriority k0 a ≤ nlPriority k0 b)) := by
  unfold searchByNaturalLanguage at h
  simp only [List.take_nil, if_true] at h
  by_cases hq : pyStrip (pyLower query) = ""
  · rw [if_pos hq] at h
    injection h with h
    subst h
    refine ⟨by simp, fun _ => rfl, by simp, fun _ _ _ => List.Pairwise.nil⟩
  · rw [if_neg hq] at h
    cases hk : nlFilteredKeywords (pyStrip (pyLower query)) with
    | nil =>
      simp only [hk] at h
      injection h with h
      subst h
      refine ⟨by simp, fun _ => rfl, by simp, ?_⟩
      intro k0 rest heq
      exact absurd heq (by simp)
    | cons k0 rest =>
      simp only [hk, if_true] at h
      injection h with h
      subst h
      have hsorted := pairwise_sortLe
        (fun x y => decide (nlPriority k0 x ≤ nlPriority k0 y))
        (fun x y => by
          rcases Nat.le_total (nlPriority k0 x) (nlPriority k0 y) with hxy | hxy
          · exact Or.inl (decide_eq_true hxy)
          · exact Or.inr (decide_eq_true hxy))
        (fun x y z hxy hyz =>
          decide_eq_true (Nat.le_trans (of_decide_eq_true hxy) (of_decide_eq_true hyz)))
        (rows.filter (fun r => (k0 :: rest).any (rowMatchesKeyword r)))
      refine ⟨List.length_take_le lim _, ?_, ?_, ?_⟩
      · intro h0
        exact absurd h0 (by simp)
      · intro r hr
        have hmem := mem_sortLe.mp (List.mem_of_mem_take hr)
        obtain ⟨hrows, hmatch⟩ := List.mem_filter.mp hmem
        exact ⟨hrows, List.any_eq_true.mp hmatch⟩
      · intro k0' rest' heq
        injection heq with heq1 heq2
        subst heq1
        have := hsorted.sublist (List.take_sublist lim _)
        exact this.imp fun hab => of_decide_eq_true hab

/-- Claim C7, amended, witness: the single-row catalog on the query `"abc"`
returns exactly that row within the limit, with all stated properties. -/
theorem claim_C7_amended_witness :
    ([c7Row] : List EndpointRow).length ≤ 5 ∧
    (nlFilteredKeywords (pyStrip (pyLower "abc")) = [] → [c7Row] = []) ∧
    (∀ r ∈ [c7Row], r ∈ [c7Row] ∧
      ∃ kw ∈ nlFilteredKeywords (pyStrip (pyLower "abc")), rowMatchesKeyword r kw = true) ∧
    (∀ k0 rest, nlFilteredKeywords (pyStrip (pyLower "abc")) = k0 :: rest →
      ([c7Row] : List EndpointRow).Pairwise (fun a b => nlPriority k0 a ≤ nlPriority k0 b)) :=
  claim_C7_amended [c7Row] "abc" 5 [c7Row] rfl

/-! ## Lemmas about the cached-query store -/

theorem find?_cons_pos (p : α → Bool) (a : α) (l : List α) (h : p a = true) :
    (a :: l).find? p = some a := by
  simp [List.find?, h]

theorem find?_cons_neg (p : α → Bool) (a : α) (l : List α) (h : p a = false) :
    (a :: l).find? p = l.find? p := by
  simp [List.find?, h]

theorem find?_filter_of_imp (q p : α → Bool) (l : List α)
    (himp : ∀ a, q a = true → p a = true) :
    (l.filter p).find? q = l.find? q := by
  induction l with
  | nil => rfl
  | cons a t ih =>
    by_cases hp : p a = true
    · rw [List.filter_cons_of_pos hp]
      cases hq : q a with
      | true => rw [find?_cons_pos q a (t.filter p) hq, find?_cons_pos q a t hq]
      | false => rw [find?_cons_neg q a (t.filter p) hq, find?_cons_neg q a t hq, ih]
    · rw [List.filter_cons_of_neg (by simpa using hp)]
      have hq : q a = false := by
        cases hqa : q a with
        | true => exact absurd (himp a hqa) hp
        | false => rfl
      rw [ih, find?_cons_neg q a t hq]

theorem usage_mono_map (l : List SQRow) (f : SQRow → SQRow)
    (hid : ∀ x, (f x).id = x.id) (husage : ∀ x, x.usage_count ≤ (f x).usage_count)
    (i : Nat) (r r' : SQRow)
    (h1 : l.find? (fun x => x.id == i) = some r)
    (h2 : (l.map f).find? (fun x => x.id == i) = some r') :
    r.usage_count ≤ r'.usage_count := by
  induction l with
  | nil => simp [List.find?] at h1
  | cons a t ih =>
    cases ha : (a.id == i) with
    | true =>
      rw [find?_cons_pos (fun x => x.id == i) a t ha] at h1
      rw [List.map_cons,
        find?_cons_pos (fun x => x.id == i) (f a) (t.map f)
          (by show ((f a).id == i) = true; rw [hid a]; exact ha)] at h2
      injection h1 with h1
      injection h2 with h2
      subst h1
      subst h2
      exact husage a
    | false =>
      rw [find?_cons_neg (fun x => x.id == i) a t ha] at h1
      rw [List.map_cons,
        find?_cons_neg (fun x => x.id == i) (f a) (t.map f)
          (by show ((f a).id == i) = false; rw [hid a]; exact ha)] at h2
      exact ih h1 h2

theorem usage_mono_updateFirst (l : List SQRow) (p : SQRow → Bool) (f : SQRow → SQRow)
    (hid : ∀ x, (f x).id = x.id) (husage : ∀ x, x.usage_count ≤ (f x).usage_count)
    (i : Nat) (r r' : SQRow)
    (h1 : l.find? (fun x => x.id == i) = some r)
    (h2 : (updateFirst p f l).find? (fun x => x.id == i) = some r') :
    r.usage_count ≤ r'.usage_count := by
  induction l with
  | nil => simp [List.find?] at h1
  | cons a t ih =>
    by_cases hp : p a = true
    · rw [show updateFirst p f (a :: t) = f a :: t from by simp [updateFirst, hp]] at h2
      cases ha : (a.id == i) with
      | true =>
        rw [find?_cons_pos (fun x => x.id == i) a t ha] at h1
        rw [find?_cons_pos (fun x => x.id == i) (f a) t
          (by show ((f a).id == i) = true; rw [hid a]; exact ha)] at h2
        injection h1 with h1
        injection h2 with h2
        subst h1
        subst h2
        exact husage a
      | false =>
        rw [find?_cons_neg (fun x => x.id == i) a t ha] at h1
        rw [find?_cons_neg (fun x => x.id == i) (f a) t
          (by show ((f a).id == i) = false; rw [hid a]; exact ha)] at h2
        rw [h1] at h2
        injection h2 with h2
        subst h2
        exact Nat.le_refl _
    · rw [show updateFirst p f (a :: t) = a :: updateFirst p f t from by
        simp [updateFirst, hp]] at h2
      cases ha : (a.id == i) with
      | true =>
        rw [find?_cons_pos (fun x => x.id == i) a t ha] at h1
        rw [find?_cons_pos (fun x => x.id == i) a (updateFirst p f t) ha] at h2
        injection h1 with h1
        injection h2 with h2
        subst h1
        subst h2
        exact Nat.le_refl _
      | false =>
        rw [find?_cons_neg (fun x => x.id == i) a t ha] at h1
        rw [find?_cons_neg (fun x => x.id == i) a (updateFirst p f t) ha] at h2
        exact ih h1 h2

theorem updateFirst_append_of_no_match (p : α → Bool) (f : α → α) (l₁ l₂ : List α)
    (h : ∀ x ∈ l₁, ¬ p x = true) :
    updateFirst p f (l₁ ++ l₂) = l₁ ++ updateFirst p f l₂ := by
  induction l₁ with
  | nil => rfl
  | cons a t ih =>
    have ha : p a = false := by
      cases hpa : p a with
      | true => exact absurd hpa (h a (List.mem_cons_self a t))
      | false => rfl
    have ht : ∀ x ∈ t, ¬ p x = true := fun x hx => h x (List.mem_cons_of_mem a hx)
    simp [List.cons_append, updateFirst, ha, ih ht]

/-- Claim C2 (code defect): `delete_query` does remove the row with the given
id, but its body contains no `return` statement, so the declared boolean —
promised by both the claim and the function's own docstring ("True if
successful, False if query not found") — is never produced: every call
evaluates to `None` (modelled `none`), on this store with the row present and
on every other input. -/
theorem claim_C2_code_bug :
    c2Store.rows.any (fun r => r.id == 1) = true ∧
    (deleteQuery c2Store 1).2.rows.any (fun r => r.id == 1) = false ∧
    (deleteQuery c2Store 1).1 = none ∧
    (∀ (s : SQStore) (qid : Nat), (deleteQuery s qid).1 = none) :=
  ⟨by decide, by decide, rfl, fun _ _ => rfl⟩


/-- Claim C3: starting from a store with no row for `(path, method)`, two
`save_query` calls for that pair return the same id (the id minted by the
first call), and leave exactly one row for the pair — carrying the second
call's description, params, and data, the second timestamp, and
`usage_count = 2`. -/
theorem claim_C3 (s : SQStore) (now1 now2 : Nat) (d1 d2 p m : String)
    (params1 params2 data1 data2 : Option String)
    (h : s.rows.countP (sqMatches p m) = 0) :
    (saveQuery s now1 d1 p m params1 data1).1 = s.nextId ∧
    (saveQuery (saveQuery s now1 d1 p m params1 data1).2 now2 d2 p m params2 data2).1
      = s.nextId ∧
    ((saveQuery (saveQuery s now1 d1 p m params1 data1).2 now2 d2 p m
        params2 data2).2.rows.filter (sqMatches p m))
      = [⟨s.nextId, d2, p, m, params2, data2, now2, 2⟩] := by
  have hno : ∀ x ∈ s.rows, ¬ sqMatches p m x = true := List.countP_eq_zero.mp h
  have hnone : s.rows.find? (sqMatches p m) = none := List.find?_eq_none.mpr hno
  have hnew : sqMatches p m ⟨s.nextId, d1, p, m, params1, data1, now1, 1⟩ = true := by
    simp [sqMatches]
  have h1 : saveQuery s now1 d1 p m params1 data1 =
      (s.nextId, ⟨s.rows ++ [⟨s.nextId, d1, p, m, params1, data1, now1, 1⟩],
        s.nextId + 1⟩) := by
    simp only [saveQuery, hnone]
  rw [h1]
  have hfind2 : List.find? (sqMatches p m)
      (s.rows ++ [(⟨s.nextId, d1, p, m, params1, data1, now1, 1⟩ : SQRow)]) =
      some ⟨s.nextId, d1, p, m, params1, data1, now1, 1⟩ := by
    rw [List.find?_append, hnone]
    simp [List.find?, hnew]
  have h2 : saveQuery
      (⟨s.rows ++ [⟨s.nextId, d1, p, m, params1, data1, now1, 1⟩],
        s.nextId + 1⟩ : SQStore) now2 d2 p m params2 data2 =
      (s.nextId,
        ⟨updateFirst (sqMatches p m) (sqBump now2 d2 params2 data2)
          (s.rows ++ [⟨s.nextId, d1, p, m, params1, data1, now1, 1⟩]),
         s.nextId + 1⟩) := by
    simp only [saveQuery, hfind2]
  rw [h2]
  refine ⟨rfl, rfl, ?_⟩
  rw [updateFirst_append_of_no_match (sqMatches p m) _ s.rows _ hno]
  rw [show updateFirst (sqMatches p m) (sqBump now2 d2 params2 data2)
      [⟨s.nextId, d1, p, m, params1, data1, now1, 1⟩]
      = [⟨s.nextId, d2, p, m, params2, data2, now2, 2⟩] from by
    simp [updateFirst, hnew, sqBump]]
  rw [List.filter_append, List.filter_eq_nil_iff.mpr hno]
  simp [sqMatches]

/-- Claim C3, witness: two saves of `("/p", "get")` into the empty store with
next id 5 both return 5 and leave the single expected row. -/
theorem claim_C3_witness :
    (saveQuery ⟨[], 5⟩ 10 "d1" "/p" "get" none none).1 = 5 ∧
    (saveQuery (saveQuery ⟨[], 5⟩ 10 "d1" "/p" "get" none none).2 11 "d2" "/p" "get"
      none none).1 = 5 ∧
    ((saveQuery (saveQuery ⟨[], 5⟩ 10 "d1" "/p" "get" none none).2 11 "d2" "/p" "get"
      none none).2.rows.filter (sqMatches "/p" "get"))
      = [⟨5, "d2", "/p", "get", none, none, 11, 2⟩] :=
  claim_C3 ⟨[], 5⟩ 10 11 "d1" "d2" "/p" "get" none none none none (by decide)

/-- Claim C9: across every serving operation of the cached-query store, a row
(identified by id) that exists both before and after the operation never loses
usage count: reads leave the store unchanged, `increment_usage` and the upsert
branch of `save_query` only add one, and deletion/clearing remove rows rather
than alter survivors. -/
theorem claim_C9 (op : StoreOp) (s : SQStore) (i : Nat) (r r' : SQRow)
    (hbefore : s.rows.find? (fun x => x.id == i) = some r)
    (hafter : (applyStoreOp op s).rows.find? (fun x => x.id == i) = some r') :
    r.usage_count ≤ r'.usage_count := by
  cases op with
  | findOp p m =>
    simp only [applyStoreOp] at hafter
    rw [hbefore] at hafter
    injection hafter with hafter
    subst hafter
    exact Nat.le_refl _
  | searchOp t =>
    simp only [applyStoreOp] at hafter
    rw [hbefore] at hafter
    injection hafter with hafter
    subst hafter
    exact Nat.le_refl _
  | getAll =>
    simp only [applyStoreOp] at hafter
    rw [hbefore] at hafter
    injection hafter with hafter
    subst hafter
    exact Nat.le_refl _
  | clearOp =>
    simp [applyStoreOp, clearAll, List.find?] at hafter
  | incr now qid =>
    refine usage_mono_map s.rows _ ?_ ?_ i r r' hbefore hafter
    · intro x
      by_cases hx : (x.id == qid) = true
      · simp [hx]
      · simp [hx]
    · intro x
      by_cases hx : (x.id == qid) = true
      · simp only [hx, if_true]
        exact Nat.le_succ _
      · simp [hx]
  | deleteOp qid =>
    by_cases hiq : i = qid
    · have hq := List.find?_some hafter
      have hmem := List.mem_of_find?_eq_some hafter
      have hp := (List.mem_filter.mp hmem).2
      rw [hiq] at hq
      simp at hq hp
      exact absurd hq hp
    · rw [show (applyStoreOp (.deleteOp qid) s).rows
          = s.rows.filter (fun x => !(x.id == qid)) from rfl] at hafter
      rw [find?_filter_of_imp _ _ s.rows ?_] at hafter
      · rw [hbefore] at hafter
        injection hafter with hafter
        subst hafter
        exact Nat.le_refl _
      · intro a ha
        simp only [beq_iff_eq] at ha
        simp [ha, hiq]
  | save now d p m params data =>
    rw [show applyStoreOp (.save now d p m params data) s
        = (saveQuery s now d p m params data).2 from rfl] at hafter
    unfold saveQuery at hafter
    cases hf : s.rows.find? (sqMatches p m) with
    | none =>
      rw [hf] at hafter
      simp only at hafter
      rw [List.find?_append, hbefore] at hafter
      injection hafter with hafter
      subst hafter
      exact Nat.le_refl _
    | some existing =>
      rw [hf] at hafter
      simp only at hafter
      refine usage_mono_updateFirst s.rows (sqMatches p m)
        (sqBump now d params data) ?_ ?_ i r r' hbefore hafter
      · intro x
        rfl
      · intro x
        exact Nat.le_succ _

/-- Claim C9, witness: incrementing usage of the only row of `c9Store` takes
its usage count from 1 to 2. -/
theorem claim_C9_witness :
    (⟨1, "d", "/p", "get", none, none, 50, 1⟩ : SQRow).usage_count ≤
      (⟨1, "d", "/p", "get", none, none, 60, 2⟩ : SQRow).usage_count :=
  claim_C9 (.incr 60 1) c9Store 1 ⟨1, "d", "/p", "get", none, none, 50, 1⟩
    ⟨1, "d", "/p", "get", none, none, 60, 2⟩ (by decide) (by decide)
